import Mathlib

/-!
Shallow embedding of the Verge convergence engine.

The embedding follows the current generation of the engine, the file
`converge.ts` that defines the `BaseFunction` class hierarchy with
`ConstantBaseExpFunction`, the growth-kind aware `converge` evaluator and
the tree-to-function translator `parseFunction`.

Numeric domain: JavaScript numbers are modelled by `JsNum`, an idealized
IEEE double: a finite value is an exact rational (rounding is not
modelled; no claim under consideration depends on rounding), plus the
three non-finite values +Infinity, -Infinity and NaN.  The special-value
propagation of the arithmetic used by the evaluator (division by zero,
`Infinity * sign`, NaN propagation, `NaN === x` being false) is modelled
exactly.  The transcendental library primitives `Math.pow`, `Math.E ** x`,
`Math.log`, `Math.sin`, `Math.cos`, `Math.sqrt` are platform functions,
not repository code; they enter the embedding as an abstract parameter
structure `RealPrims`, so every theorem holds for any interpretation of
those primitives.
-/

/-- A JavaScript number: a finite (idealized exact) rational, +Infinity,
-Infinity, or NaN. -/
inductive JsNum where
  | fin (q : ℚ)
  | posInf
  | negInf
  | nan
deriving DecidableEq, Repr

namespace JsNum

/-- JavaScript strict equality `===` restricted to numbers: NaN is not
equal to anything, including itself. -/
def jsEq : JsNum → JsNum → Bool
  | .fin a, .fin b => a = b
  | .posInf, .posInf => true
  | .negInf, .negInf => true
  | _, _ => false

/-- JavaScript `<` on numbers: any comparison involving NaN is false. -/
def jsLt : JsNum → JsNum → Bool
  | .fin a, .fin b => a < b
  | .fin _, .posInf => true
  | .negInf, .fin _ => true
  | .negInf, .posInf => true
  | _, _ => false

/-- JavaScript `>` on numbers. -/
def jsGt (a b : JsNum) : Bool := jsLt b a

/-- JavaScript `>=` on numbers: false whenever NaN is involved. -/
def jsGe (a b : JsNum) : Bool := jsLt b a || jsEq a b

/-- `Math.sign`: NaN maps to NaN, the infinities to plus or minus one, a
finite value to the sign of the value. -/
def jsSign : JsNum → JsNum
  | .nan => .nan
  | .posInf => .fin 1
  | .negInf => .fin (-1)
  | .fin q => if q > 0 then .fin 1 else if q < 0 then .fin (-1) else .fin 0

/-- `Math.abs` (the finite case is written with an explicit sign test so
that it evaluates definitionally). -/
def jsAbs : JsNum → JsNum
  | .nan => .nan
  | .posInf => .posInf
  | .negInf => .posInf
  | .fin q => .fin (if q < 0 then -q else q)

/-- JavaScript addition with IEEE special values. -/
def jsAdd : JsNum → JsNum → JsNum
  | .nan, _ => .nan
  | _, .nan => .nan
  | .posInf, .negInf => .nan
  | .negInf, .posInf => .nan
  | .posInf, _ => .posInf
  | _, .posInf => .posInf
  | .negInf, _ => .negInf
  | _, .negInf => .negInf
  | .fin a, .fin b => .fin (a + b)

/-- JavaScript multiplication with IEEE special values: an infinity times
zero is NaN. -/
def jsMul : JsNum → JsNum → JsNum
  | .nan, _ => .nan
  | _, .nan => .nan
  | .posInf, .posInf => .posInf
  | .posInf, .negInf => .negInf
  | .negInf, .posInf => .negInf
  | .negInf, .negInf => .posInf
  | .posInf, .fin b => if b > 0 then .posInf else if b < 0 then .negInf else .nan
  | .fin a, .posInf => if a > 0 then .posInf else if a < 0 then .negInf else .nan
  | .negInf, .fin b => if b > 0 then .negInf else if b < 0 then .posInf else .nan
  | .fin a, .negInf => if a > 0 then .negInf else if a < 0 then .posInf else .nan
  | .fin a, .fin b => .fin (a * b)

/-- JavaScript division with IEEE special values: a nonzero finite value
divided by zero is a signed infinity, zero by zero is NaN, an infinity
divided by an infinity is NaN, a finite value divided by an infinity is
zero.  (Signed zero is not modelled; the positive zero behaviour is
used.) -/
def jsDiv : JsNum → JsNum → JsNum
  | .nan, _ => .nan
  | _, .nan => .nan
  | .posInf, .posInf => .nan
  | .posInf, .negInf => .nan
  | .negInf, .posInf => .nan
  | .negInf, .negInf => .nan
  | .posInf, .fin b => if b < 0 then .negInf else .posInf
  | .negInf, .fin b => if b < 0 then .posInf else .negInf
  | .fin _, .posInf => .fin 0
  | .fin _, .negInf => .fin 0
  | .fin a, .fin b =>
    if b = 0 then (if a > 0 then .posInf else if a < 0 then .negInf else .nan)
    else .fin (a / b)

/-- `isFinite`. -/
def isFiniteJ : JsNum → Bool
  | .fin _ => true
  | _ => false

end JsNum

open JsNum

/-- JavaScript strict equality between two possibly-undefined numbers
(an absent optional field is `undefined`; `undefined === undefined` is
true, `undefined === n` is false, and NaN is unequal to itself). -/
def optJsEq : Option JsNum → Option JsNum → Bool
  | some a, some b => jsEq a b
  | none, none => true
  | _, _ => false

/-- Test `x === 0` for a possibly-undefined number. -/
def optIsZero : Option JsNum → Bool
  | some a => jsEq a (.fin 0)
  | none => false

/-- JavaScript truthiness test used in `!argConverge.divergeTo`: an
absent field (`undefined`), NaN and zero are all falsy. -/
def optFalsy : Option JsNum → Bool
  | none => true
  | some .nan => true
  | some a => jsEq a (.fin 0)

/-- The `GrowthKind` enum of the source, in declaration order
(Exponential = 0, Polynomial = 1, Logarithmic = 2). -/
inductive GrowthKind where
  | Exponential
  | Polynomial
  | Logarithmic
deriving DecidableEq, Repr

/-- Numeric rank of a growth kind, its position in the source enum; the
evaluator compares and takes `Math.min` of these ranks (a lower rank is a
faster growth). -/
def GrowthKind.rank : GrowthKind → Nat
  | .Exponential => 0
  | .Polynomial => 1
  | .Logarithmic => 2

/-- `Math.min` on two growth kinds, acting on their enum ranks. -/
def GrowthKind.minG (a b : GrowthKind) : GrowthKind :=
  if a.rank ≤ b.rank then a else b

/-- The `ConvergenceResult` record of the source: a fresh instance has
`converges = false` and all optional fields absent. -/
structure ConvergenceResult where
  converges : Bool
  limit : Option JsNum
  divergeTo : Option JsNum
  growthKind : Option GrowthKind
deriving DecidableEq, Repr

/-- `new ConvergenceResult().converge(limit, growthKind)`. -/
def mkConverge (l : JsNum) (g : GrowthKind) : ConvergenceResult :=
  ⟨true, some l, none, some g⟩

/-- `new ConvergenceResult().diverge(divergeTo, growthKind)`. -/
def mkDiverge (d : JsNum) (g : GrowthKind) : ConvergenceResult :=
  ⟨false, none, some d, some g⟩

/-- `new ConvergenceResult().divergeIndeterminant()`. -/
def mkIndet : ConvergenceResult := ⟨false, none, none, none⟩

/-- The `BaseFunction` class hierarchy of the source as a sum type.
`Polynomial` stores coefficients by ascending power; `LogFunction` stores
its numeric base; `ConstantBaseExpFunction` stores the constant base as a
JavaScript number (the source can store a non-finite base when the base
came from a limit computation). -/
inductive BaseFunction where
  | Polynomial (coefficients : List ℚ)
  | RationalFunction (numerator denominator : BaseFunction)
  | AddFunction (left right : BaseFunction)
  | MultiplyFunction (left right : BaseFunction)
  | DivideFunction (numerator denominator : BaseFunction)
  | SinFunction (argument : BaseFunction)
  | CosFunction (argument : BaseFunction)
  | TanFunction (argument : BaseFunction)
  | LogFunction (argument : BaseFunction) (base : ℚ)
  | LnFunction (argument : BaseFunction)
  | SqrtFunction (argument : BaseFunction)
  | EExpFunction (argument : BaseFunction)
  | ConstantBaseExpFunction (base : JsNum) (exponent : BaseFunction)
deriving DecidableEq, Repr

namespace BaseFunction

/-- Drop the zero coefficients at the high-order end of a coefficient
list. -/
def dropTrailingZeros : List ℚ → List ℚ
  | [] => []
  | c :: rest =>
    match dropTrailingZeros rest with
    | [] => if c = 0 then [] else [c]
    | r => c :: r

/-- The normalization performed by the `Polynomial` constructor: pop
trailing zero coefficients while more than one coefficient remains, and
replace an empty list by `[0]`.  The first coefficient is protected, so
the result is the head followed by the tail with its trailing zeros
removed. -/
def trimPoly : List ℚ → List ℚ
  | [] => [0]
  | c :: rest => c :: dropTrailingZeros rest

/-- Coefficientwise sum, padding the shorter list with zeros
(`Polynomial.add` on two polynomials). -/
def addCoeffs : List ℚ → List ℚ → List ℚ
  | [], [] => []
  | [], b :: bs => b :: addCoeffs [] bs
  | a :: as, [] => a :: addCoeffs as []
  | a :: as, b :: bs => (a + b) :: addCoeffs as bs

/-- Coefficient convolution (`Polynomial.multiply` on two polynomials). -/
def mulCoeffs : List ℚ → List ℚ → List ℚ
  | [], _ => []
  | a :: as, bs => addCoeffs (bs.map (fun b => a * b)) (0 :: mulCoeffs as bs)

/-- Is this value a `Polynomial` node. -/
def isPolyB : BaseFunction → Bool
  | .Polynomial _ => true
  | _ => false

/-- Is this value a `RationalFunction` node. -/
def isRatB : BaseFunction → Bool
  | .RationalFunction _ _ => true
  | _ => false

end BaseFunction

open BaseFunction

/-- The transcendental platform primitives used by the evaluator
(`Math.pow`, `Math.E ** x`, `Math.log`, `Math.sin`, `Math.cos`,
`Math.sqrt`).  They are library functions of the JavaScript runtime, not
repository code, so the embedding abstracts over them. -/
structure RealPrims where
  pow : JsNum → JsNum → JsNum
  expE : JsNum → JsNum
  log : JsNum → JsNum
  sin : JsNum → JsNum
  cos : JsNum → JsNum
  sqrt : JsNum → JsNum

/-- A trivial interpretation of the primitives, used to evaluate closed
examples whose value does not depend on the primitives. -/
def dummyPrims : RealPrims :=
  ⟨fun _ _ => .fin 0, fun _ => .fin 0, fun _ => .fin 0,
   fun _ => .fin 0, fun _ => .fin 0, fun _ => .fin 0⟩

/-- The exceptions the engine can raise: the two evaluator failures
(the Tan limit request and the rational-function fallback), the three
translator failures, and fuel exhaustion of the embedding (the source
recursion is not structurally decreasing, so the embedded combinator
algebra carries explicit fuel; no theorem below ever exhausts it). -/
inductive VergeError where
  | tanUnsupported
  | rationalFallback
  | unsupportedExponent
  | unknownFunction (name : String)
  | unsupportedExpression
  | outOfFuel
deriving DecidableEq, Repr

/-- The limit evaluator `converge` of the current engine, a structural
recursion over `BaseFunction`.  Every branch mirrors the source:

* `RationalFunction` of two `Polynomial`s: compare degrees, using the
  leading coefficients for the equal and greater cases.
* `RationalFunction` with a nested `RationalFunction` on either side:
  evaluate both sides recursively and combine.
* any other `RationalFunction` shape: throw
  (`Failed to evaluate limt of rational function`).
* `Polynomial`: degree 0 converges to the constant coefficient, higher
  degree diverges with the sign of the leading coefficient.
* `ConstantBaseExpFunction`: the case table on the exponent's behaviour
  and the magnitude of the base.
* the transcendental wrappers: early indeterminate return on a falsy
  `divergeTo`, then the converging-argument rule, then the
  diverging-argument composition rule; `TanFunction` throws whenever the
  argument's limit is determinate.
* `AddFunction`, `MultiplyFunction`, `DivideFunction`: the combination
  case tables of the source, in source order. -/
def converge (P : RealPrims) : BaseFunction → Except VergeError ConvergenceResult
  | .RationalFunction num den =>
    match num, den with
    | .Polynomial nc, .Polynomial dc =>
      let numDegree : ℤ := (nc.length : ℤ) - 1
      let denDegree : ℤ := (dc.length : ℤ) - 1
      if numDegree < denDegree then
        pure (mkConverge (.fin 0) .Polynomial)
      else if numDegree = denDegree then
        pure (mkConverge (jsDiv (.fin (nc.getLastD 0)) (.fin (dc.getLastD 0))) .Polynomial)
      else
        pure (mkDiverge (jsMul .posInf (jsSign (jsDiv (.fin (nc.getLastD 0)) (.fin (dc.getLastD 0))))) .Polynomial)
    | _, _ =>
      if num.isRatB || den.isRatB then do
        let rn ← converge P num
        let rd ← converge P den
        if rn.converges && rd.converges then
          if optIsZero rd.limit then
            pure mkIndet
          else
            pure (mkConverge (jsDiv (rn.limit.getD .nan) (rd.limit.getD .nan)) .Polynomial)
        else if rn.converges && !rd.converges then
          if rd.divergeTo.isSome then
            pure (mkConverge (.fin 0) .Polynomial)
          else
            pure mkIndet
        else if !rn.converges && rd.converges then
          if optIsZero rd.limit then
            pure mkIndet
          else if rn.divergeTo.isSome then
            pure (mkDiverge (rn.divergeTo.getD .nan) (rn.growthKind.getD .Polynomial))
          else
            pure mkIndet
        else
          pure mkIndet
      else
        throw .rationalFallback
  | .Polynomial cs =>
    let degree : ℤ := (cs.length : ℤ) - 1
    if degree ≤ 0 then
      pure ⟨true, (cs.head?).map .fin, none, some .Polynomial⟩
    else
      pure (mkDiverge (jsMul .posInf (jsSign (.fin (cs.getLastD 0)))) .Polynomial)
  | .ConstantBaseExpFunction base expFn => do
    let ec ← converge P expFn
    if ec.converges then
      match ec.limit with
      | some l => pure (mkConverge (P.pow base l) .Exponential)
      | none => pure mkIndet
    else if ec.divergeTo.isSome then
      let absBase := jsAbs base
      if optJsEq ec.divergeTo (some .posInf) then
        if jsGt absBase (.fin 1) then
          if jsLt base (.fin 0) then pure mkIndet
          else pure (mkDiverge .posInf .Exponential)
        else if jsEq absBase (.fin 1) then
          if jsEq base (.fin 1) then pure (mkConverge (.fin 1) .Exponential)
          else pure mkIndet
        else
          pure (mkConverge (.fin 0) .Exponential)
      else if optJsEq ec.divergeTo (some .negInf) then
        if jsGt absBase (.fin 1) then
          pure (mkConverge (.fin 0) .Exponential)
        else if jsEq absBase (.fin 1) then
          if jsEq base (.fin 1) then pure (mkConverge (.fin 1) .Exponential)
          else pure mkIndet
        else
          pure (mkDiverge .posInf .Exponential)
      else
        pure mkIndet
    else
      pure mkIndet
  | .EExpFunction arg => do
    let ac ← converge P arg
    if !ac.converges && optFalsy ac.divergeTo then
      pure mkIndet
    else if ac.converges then
      pure (mkConverge (P.expE (ac.limit.getD .nan)) .Exponential)
    else if (ac.divergeTo.getD .nan).jsGt (.fin 0) then
      pure (mkDiverge .posInf .Exponential)
    else
      pure (mkConverge (.fin 0) .Exponential)
  | .LogFunction arg base => do
    let ac ← converge P arg
    if !ac.converges && optFalsy ac.divergeTo then
      pure mkIndet
    else if ac.converges then
      let logValue := jsDiv (P.log (ac.limit.getD .nan)) (P.log (.fin base))
      if !logValue.isFiniteJ then
        if jsEq logValue .negInf then pure (mkDiverge .negInf .Logarithmic)
        else pure (mkDiverge .posInf .Logarithmic)
      else
        pure (mkConverge logValue .Logarithmic)
    else if (ac.divergeTo.getD .nan).jsGt (.fin 0) then
      pure (mkDiverge .posInf .Logarithmic)
    else
      pure mkIndet
  | .LnFunction arg => do
    let ac ← converge P arg
    if !ac.converges && optFalsy ac.divergeTo then
      pure mkIndet
    else if ac.converges then
      let logValue := P.log (ac.limit.getD .nan)
      if !logValue.isFiniteJ then
        if jsEq logValue .negInf then pure (mkDiverge .negInf .Logarithmic)
        else pure (mkDiverge .posInf .Logarithmic)
      else
        pure (mkConverge logValue .Logarithmic)
    else if (ac.divergeTo.getD .nan).jsGt (.fin 0) then
      pure (mkDiverge .posInf .Logarithmic)
    else
      pure mkIndet
  | .SinFunction arg => do
    let ac ← converge P arg
    if !ac.converges && optFalsy ac.divergeTo then
      pure mkIndet
    else if ac.converges then
      pure (mkConverge (P.sin (ac.limit.getD .nan)) .Polynomial)
    else
      pure mkIndet
  | .CosFunction arg => do
    let ac ← converge P arg
    if !ac.converges && optFalsy ac.divergeTo then
      pure mkIndet
    else if ac.converges then
      pure (mkConverge (P.cos (ac.limit.getD .nan)) .Polynomial)
    else
      pure mkIndet
  | .SqrtFunction arg => do
    let ac ← converge P arg
    if !ac.converges && optFalsy ac.divergeTo then
      pure mkIndet
    else if ac.converges then
      if (ac.limit.getD .nan).jsGe (.fin 0) then
        pure (mkConverge (P.sqrt (ac.limit.getD .nan)) .Polynomial)
      else
        pure mkIndet
    else if (ac.divergeTo.getD .nan).jsGt (.fin 0) then
      pure (mkDiverge .posInf .Polynomial)
    else
      pure mkIndet
  | .TanFunction arg => do
    let ac ← converge P arg
    if !ac.converges && optFalsy ac.divergeTo then
      pure mkIndet
    else
      throw .tanUnsupported
  | .AddFunction l r => do
    let lc ← converge P l
    let rc ← converge P r
    if lc.converges && rc.converges then
      pure (mkConverge (jsAdd (lc.limit.getD .nan) (rc.limit.getD .nan)) .Polynomial)
    else if lc.converges && !rc.converges then
      if rc.divergeTo.isSome then
        pure (mkDiverge (rc.divergeTo.getD .nan) (rc.growthKind.getD .Polynomial))
      else
        pure mkIndet
    else if rc.converges && !lc.converges then
      if lc.divergeTo.isSome then
        pure (mkDiverge (lc.divergeTo.getD .nan) (lc.growthKind.getD .Polynomial))
      else
        pure mkIndet
    else if lc.divergeTo.isSome && rc.divergeTo.isSome then
      let lg := lc.growthKind.getD .Polynomial
      let rg := rc.growthKind.getD .Polynomial
      if lg.rank < rg.rank then
        pure (mkDiverge (lc.divergeTo.getD .nan) lg)
      else if rg.rank < lg.rank then
        pure (mkDiverge (rc.divergeTo.getD .nan) rg)
      else if jsEq (jsSign (lc.divergeTo.getD .nan)) (jsSign (rc.divergeTo.getD .nan)) then
        pure (mkDiverge (lc.divergeTo.getD .nan) lg)
      else
        pure mkIndet
    else
      pure mkIndet
  | .MultiplyFunction l r => do
    let lc ← converge P l
    let rc ← converge P r
    if lc.converges && rc.converges then
      pure (mkConverge (jsMul (lc.limit.getD .nan) (rc.limit.getD .nan)) .Polynomial)
    else if lc.converges && optIsZero lc.limit && !rc.converges && rc.divergeTo.isNone then
      pure (mkConverge (.fin 0) .Polynomial)
    else if rc.converges && optIsZero rc.limit && !lc.converges && lc.divergeTo.isNone then
      pure (mkConverge (.fin 0) .Polynomial)
    else if lc.converges && !rc.converges && rc.divergeTo.isSome then
      if optIsZero lc.limit then
        pure mkIndet
      else
        pure (mkDiverge (jsMul (jsMul (jsSign (lc.limit.getD .nan)) (jsSign (rc.divergeTo.getD .nan))) .posInf)
          (rc.growthKind.getD .Polynomial))
    else if rc.converges && !lc.converges && lc.divergeTo.isSome then
      if optIsZero rc.limit then
        pure mkIndet
      else
        pure (mkDiverge (jsMul (jsMul (jsSign (rc.limit.getD .nan)) (jsSign (lc.divergeTo.getD .nan))) .posInf)
          (lc.growthKind.getD .Polynomial))
    else if !lc.converges && !rc.converges && lc.divergeTo.isSome && rc.divergeTo.isSome then
      pure (mkDiverge (jsMul (jsMul (jsSign (lc.divergeTo.getD .nan)) (jsSign (rc.divergeTo.getD .nan))) .posInf)
        ((lc.growthKind.getD .Polynomial).minG (rc.growthKind.getD .Polynomial)))
    else
      pure mkIndet
  | .DivideFunction num den => do
    let nc ← converge P num
    let dc ← converge P den
    if nc.converges && dc.converges then
      if optIsZero dc.limit then
        pure mkIndet
      else
        pure (mkConverge (jsDiv (nc.limit.getD .nan) (dc.limit.getD .nan)) .Polynomial)
    else if nc.converges && !dc.converges then
      if dc.divergeTo.isSome then
        pure (mkConverge (.fin 0) .Polynomial)
      else
        pure mkIndet
    else if !nc.converges && dc.converges then
      if optIsZero dc.limit then
        pure mkIndet
      else if nc.divergeTo.isSome then
        pure (mkDiverge (nc.divergeTo.getD .nan) (nc.growthKind.getD .Polynomial))
      else
        pure mkIndet
    else
      if nc.divergeTo.isSome && dc.divergeTo.isSome then
        let numGrowth := nc.growthKind.getD .Polynomial
        let denGrowth := dc.growthKind.getD .Polynomial
        if denGrowth.rank < numGrowth.rank then
          pure (mkConverge (.fin 0) .Polynomial)
        else if numGrowth.rank < denGrowth.rank then
          pure (mkDiverge (jsMul (jsMul (jsSign (nc.divergeTo.getD .nan)) (jsSign (dc.divergeTo.getD .nan))) .posInf)
            numGrowth)
        else
          pure mkIndet
      else if nc.divergeTo.isNone && dc.divergeTo.isSome then
        pure (mkConverge (.fin 0) .Polynomial)
      else
        pure mkIndet
termination_by structural f => f

/-- Lift the fueled combinator results: fuel exhaustion becomes the
distinguished `outOfFuel` error (the source loops are not structurally
decreasing; any concrete use below needs only a few units of fuel). -/
def fuelGuard {α : Type} : Option α → Except VergeError α
  | some a => pure a
  | none => throw .outOfFuel

mutual

/-- The `add` combinator of the `BaseFunction` algebra, with fuel.
Polynomial plus polynomial pads and sums then renormalizes; a polynomial
plus a rational is `(A + BC)/B` built on the rational's denominator; a
rational plus anything uses the common-denominator rules; every other
receiver builds a generic `AddFunction`. -/
def addC (fuel : Nat) (x y : BaseFunction) : Except VergeError BaseFunction :=
  match fuel with
  | 0 => throw .outOfFuel
  | n + 1 =>
    match x, y with
    | .Polynomial a, .Polynomial b =>
      pure (.Polynomial (trimPoly (addCoeffs a b)))
    | .Polynomial _, .RationalFunction c d => do
      let ac ← mulC n x d
      let nn ← addC n ac c
      pure (.RationalFunction nn d)
    | .Polynomial _, _ => pure (.AddFunction x y)
    | .RationalFunction a b, .RationalFunction c d => do
      let ad ← mulC n a d
      let bc ← mulC n b c
      let bd ← mulC n b d
      let nn ← addC n ad bc
      pure (.RationalFunction nn bd)
    | .RationalFunction a b, .Polynomial _ => do
      let bc ← mulC n b y
      let nn ← addC n a bc
      pure (.RationalFunction nn b)
    | .RationalFunction a b, _ => do
      let bf ← mulC n b y
      let nn ← addC n a bf
      pure (.RationalFunction nn b)
    | _, _ => pure (.AddFunction x y)
termination_by structural fuel

/-- The `multiply` combinator of the `BaseFunction` algebra, with fuel.
Polynomial times polynomial convolves coefficients; rational rules use
fraction algebra; two `ConstantBaseExpFunction`s with strictly equal
bases add their exponents; every other receiver builds a generic
`MultiplyFunction`. -/
def mulC (fuel : Nat) (x y : BaseFunction) : Except VergeError BaseFunction :=
  match fuel with
  | 0 => throw .outOfFuel
  | n + 1 =>
    match x, y with
    | .Polynomial a, .Polynomial b =>
      pure (.Polynomial (trimPoly (mulCoeffs a b)))
    | .Polynomial _, .RationalFunction c d => do
      let nn ← mulC n x c
      pure (.RationalFunction nn d)
    | .Polynomial _, _ => pure (.MultiplyFunction x y)
    | .RationalFunction a b, .RationalFunction c d => do
      let ac ← mulC n a c
      let bd ← mulC n b d
      pure (.RationalFunction ac bd)
    | .RationalFunction a b, .Polynomial _ => do
      let ac ← mulC n a y
      pure (.RationalFunction ac b)
    | .RationalFunction a b, _ => do
      let af ← mulC n a y
      pure (.RationalFunction af b)
    | .ConstantBaseExpFunction b1 e1, .ConstantBaseExpFunction b2 e2 =>
      if jsEq b1 b2 then do
        let ee ← addC n e1 e2
        pure (.ConstantBaseExpFunction b1 ee)
      else
        pure (.MultiplyFunction x y)
    | _, _ => pure (.MultiplyFunction x y)
termination_by structural fuel

end

/-- The `divide` combinator of the `BaseFunction` algebra.  A polynomial
over a polynomial builds a `RationalFunction`; a rational divided by
anything multiplies its denominator; two `ConstantBaseExpFunction`s
first evaluate both exponents through the limit evaluator (an evaluator
exception propagates), then combine same-base, equal-converging-exponent
or equal-diverging-exponent cases; every other receiver builds a generic
`DivideFunction`. -/
def divC (P : RealPrims) (fuel : Nat) (x y : BaseFunction) : Except VergeError BaseFunction :=
  match fuel with
  | 0 => throw .outOfFuel
  | n + 1 =>
    match x, y with
    | .Polynomial _, .Polynomial _ => pure (.RationalFunction x y)
    | .Polynomial _, .RationalFunction c d => do
      let ad ← mulC n x d
      pure (.RationalFunction ad c)
    | .Polynomial _, _ => pure (.DivideFunction x y)
    | .RationalFunction a b, _ => do
      let bx ← mulC n b y
      pure (.RationalFunction a bx)
    | .ConstantBaseExpFunction b1 e1, .ConstantBaseExpFunction b2 e2 => do
      let c1 ← converge P e1
      let c2 ← converge P e2
      if jsEq b1 b2 then do
        let ne ← mulC n e2 (.Polynomial (trimPoly [-1]))
        let ee ← addC n e1 ne
        pure (.ConstantBaseExpFunction b1 ee)
      else if c1.converges && c2.converges && optJsEq c1.limit c2.limit then
        pure (.ConstantBaseExpFunction (jsDiv b1 b2) e1)
      else if !c1.converges && !c2.converges && optJsEq c1.divergeTo c2.divergeTo then
        pure (.ConstantBaseExpFunction (jsDiv b1 b2) e1)
      else
        pure (.DivideFunction x y)
    | _, _ => pure (.DivideFunction x y)

/-- JavaScript `toLowerCase` for the ASCII function names, as a
character-list map (the core `String.toLower` is not kernel-reducible,
which would block evaluation of witnesses). -/
def lowerStr (s : String) : String := ⟨s.data.map Char.toLower⟩

/-- The expression tree produced by the parser.  Operators are carried
as strings, as in the source. -/
inductive Expression where
  | NumericLiteral (value : ℚ)
  | Identifier (name : String)
  | UnaryExpression (operator : String) (argument : Expression)
  | BinaryExpression (operator : String) (left right : Expression)
  | PowerExpression (base exponent : Expression)
  | FunctionCall (name : String) (argument : Expression)
deriving DecidableEq, Repr

/-- The repeated-multiplication loop of the power-expression case of
`parseFunction`: starting from `Polynomial([1])`, multiply by the
translated base once per iteration. -/
def powIter (fuel : Nat) (baseFunc : BaseFunction) : Nat → Except VergeError BaseFunction
  | 0 => pure (.Polynomial (trimPoly [1]))
  | k + 1 => do
    let r ← powIter fuel baseFunc k
    mulC fuel r baseFunc
termination_by structural k => k

/-- The numeric-literal-exponent case of the power-expression branch of
`parseFunction`.  The source loop `for (i = 0; i < expValue; i++)` runs
once per natural number below `expValue`, that is `⌈expValue⌉` times for
a positive exponent; the negative branch loops `⌈|expValue|⌉` times and
divides `Polynomial([1])` by the product. -/
def powNumericCase (P : RealPrims) (fuel : Nat) (baseFunc : BaseFunction) (expValue : ℚ) :
    Except VergeError BaseFunction :=
  if 0 ≤ expValue then
    powIter fuel baseFunc (⌈expValue⌉).toNat
  else do
    let r ← powIter fuel baseFunc (⌈|expValue|⌉).toNat
    divC P fuel (.Polynomial (trimPoly [1])) r

/-- Is the translated base a constant polynomial (a coefficient list of
length exactly one). -/
def constPolyVal : BaseFunction → Option ℚ
  | .Polynomial [c] => some c
  | _ => none

/-- The function translator `parseFunction` of the current engine.  It
maps an expression tree to a `BaseFunction`:

* binary `/`, `+`, `-`, `*` translate both sides and combine (`-` adds
  the right side multiplied by `Polynomial([-1])`);
* unary `-` multiplies by `Polynomial([-1])`, unary anything-else is the
  identity;
* a power expression with a literal base, a constant-polynomial base, or
  a rational base whose limit evaluates to a defined finite value builds
  a `ConstantBaseExpFunction`; otherwise a numeric-literal exponent runs
  the repeated-multiplication loop, and any other exponent throws;
* a numeric literal becomes a degree-0 polynomial, the identifier
  becomes `Polynomial([0, 1])`;
* a function call wraps the translated argument according to the
  lower-cased reserved name, treats `abs` as the identity, and throws
  `unknownFunction` on any other name.

The `fuel` argument feeds the combinator calls only; the tree recursion
itself is structural. -/
def parseFunction (P : RealPrims) (fuel : Nat) : Expression → Except VergeError BaseFunction
  | .BinaryExpression op l r =>
    if op = "/" then do
      let numerator ← parseFunction P fuel l
      let denominator ← parseFunction P fuel r
      divC P fuel numerator denominator
    else if op = "+" then do
      let lf ← parseFunction P fuel l
      let rf ← parseFunction P fuel r
      addC fuel lf rf
    else if op = "-" then do
      let lf ← parseFunction P fuel l
      let rf ← parseFunction P fuel r
      let neg ← mulC fuel rf (.Polynomial (trimPoly [-1]))
      addC fuel lf neg
    else if op = "*" then do
      let lf ← parseFunction P fuel l
      let rf ← parseFunction P fuel r
      mulC fuel lf rf
    else
      throw .unsupportedExpression
  | .UnaryExpression op arg => do
    let argFunc ← parseFunction P fuel arg
    if op = "-" then
      mulC fuel argFunc (.Polynomial (trimPoly [-1]))
    else
      pure argFunc
  | .PowerExpression pbase pexp =>
    match pbase with
    | .NumericLiteral bv => do
      let ef ← parseFunction P fuel pexp
      pure (.ConstantBaseExpFunction (.fin bv) ef)
    | _ => do
      let baseFunc ← parseFunction P fuel pbase
      match constPolyVal baseFunc with
      | some c => do
        let ef ← parseFunction P fuel pexp
        pure (.ConstantBaseExpFunction (.fin c) ef)
      | none => do
        let rc ← (match baseFunc with
          | .RationalFunction _ _ => do
            let rc ← converge P baseFunc
            pure (some rc)
          | _ => pure none)
        match rc with
        | some bc =>
          if bc.converges && bc.limit.isSome then do
            let ef ← parseFunction P fuel pexp
            pure (.ConstantBaseExpFunction (bc.limit.getD .nan) ef)
          else
            match pexp with
            | .NumericLiteral k => powNumericCase P fuel baseFunc k
            | _ => throw .unsupportedExponent
        | none =>
          match pexp with
          | .NumericLiteral k => powNumericCase P fuel baseFunc k
          | _ => throw .unsupportedExponent
  | .NumericLiteral v => pure (.Polynomial (trimPoly [v]))
  | .Identifier _ => pure (.Polynomial (trimPoly [0, 1]))
  | .FunctionCall name arg => do
    let argument ← parseFunction P fuel arg
    match lowerStr name with
    | "sin" => pure (.SinFunction argument)
    | "cos" => pure (.CosFunction argument)
    | "tan" => pure (.TanFunction argument)
    | "log" => pure (.LogFunction argument 10)
    | "log10" => pure (.LogFunction argument 10)
    | "log2" => pure (.LogFunction argument 2)
    | "ln" => pure (.LnFunction argument)
    | "log_e" => pure (.LnFunction argument)
    | "sqrt" => pure (.SqrtFunction argument)
    | "sqrt2" => pure (.SqrtFunction argument)
    | "exp" => pure (.EExpFunction argument)
    | "e^" => pure (.EExpFunction argument)
    | "abs" => pure argument
    | _ => throw (.unknownFunction name)
termination_by structural e => e

/-- Modelled from the spec: the token alphabet of the current parser.
The current-generation `parser.ts` (the version that produces
`FunctionCall` nodes, imported by the current `converge.ts` and by
`web.ts`) is not among the provided sources; only older parser
generations are.  The token kinds follow the lexer: numbers,
identifiers, the six operators and the parentheses, with end of input
represented by the end of the token list. -/
inductive Tok where
  | num (v : ℚ)
  | ident (s : String)
  | plus
  | minus
  | star
  | slash
  | caret
  | lparen
  | rparen
deriving DecidableEq, Repr

/-- Modelled from the spec: the implicit-multiplication juxtaposition
rule of the missing current parser — a number, identifier or
closing-parenthesis boundary followed by an identifier or an opening
parenthesis, or a closing parenthesis followed by a number, inserts a
multiplication. -/
def needsImplicitMul (last : Tok) (next : Tok) : Bool :=
  match last, next with
  | .num _, .ident _ => true
  | .num _, .lparen => true
  | .ident _, .ident _ => true
  | .ident _, .lparen => true
  | .rparen, .ident _ => true
  | .rparen, .lparen => true
  | .rparen, .num _ => true
  | _, _ => false

/-- The token consumed immediately before the remaining suffix `rest` of
the original token list `orig`. -/
def lastConsumed (orig rest : List Tok) : Option Tok :=
  orig.get? (orig.length - rest.length - 1)

/-- Modelled from the spec: the unary-sign rule of the missing current
parser — a sign on an immediate numeric literal folds eagerly into a
signed literal instead of building a unary node. -/
def applySign (op : String) : Expression → Expression
  | .NumericLiteral v => .NumericLiteral (if op = "-" then -v else v)
  | e => .UnaryExpression op e

mutual

/-- Modelled from the spec: primary rule of the missing current parser —
number, identifier, parenthesized expression; an identifier followed
directly by an opening parenthesis is recognized as a named function
call with a single argument, with no implicit multiplication inserted. -/
def parsePrimaryS (fuel : Nat) (ts : List Tok) : Option (Expression × List Tok) :=
  match fuel, ts with
  | 0, _ => none
  | _ + 1, .num v :: rest => some (.NumericLiteral v, rest)
  | f + 1, .ident s :: .lparen :: rest => do
    let (arg, r2) ← parseAdditiveS f rest
    match r2 with
    | .rparen :: r3 => some (.FunctionCall s arg, r3)
    | _ => none
  | _ + 1, .ident s :: rest => some (.Identifier s, rest)
  | f + 1, .lparen :: rest => do
    let (e, r2) ← parseAdditiveS f rest
    match r2 with
    | .rparen :: r3 => some (e, r3)
    | _ => none
  | _, _ => none
termination_by structural fuel

/-- Modelled from the spec: unary-sign rule of the missing current
parser, binding between primary and power. -/
def parseUnaryS (fuel : Nat) (ts : List Tok) : Option (Expression × List Tok) :=
  match fuel, ts with
  | 0, _ => none
  | f + 1, .plus :: rest => do
    let (a, r) ← parseUnaryS f rest
    some (applySign "+" a, r)
  | f + 1, .minus :: rest => do
    let (a, r) ← parseUnaryS f rest
    some (applySign "-" a, r)
  | f + 1, ts => parsePrimaryS f ts
termination_by structural fuel

/-- Modelled from the spec: right-associative power rule of the missing
current parser. -/
def parsePowerS (fuel : Nat) (ts : List Tok) : Option (Expression × List Tok) :=
  match fuel with
  | 0 => none
  | f + 1 => do
    let (l, r) ← parseUnaryS f ts
    match r with
    | .caret :: r2 => do
      let (e, r3) ← parsePowerS f r2
      some (.PowerExpression l e, r3)
    | _ => some (l, r)
termination_by structural fuel

/-- Modelled from the spec: implicit-multiplication level of the missing
current parser, repeatedly juxtaposing power expressions. -/
def parseImplicitS (fuel : Nat) (orig ts : List Tok) : Option (Expression × List Tok) :=
  match fuel with
  | 0 => none
  | f + 1 => do
    let (l, r) ← parsePowerS f ts
    parseImplicitLoopS f l orig r
termination_by structural fuel

/-- Modelled from the spec: the juxtaposition loop of the implicit
multiplication level. -/
def parseImplicitLoopS (fuel : Nat) (left : Expression) (orig r : List Tok) :
    Option (Expression × List Tok) :=
  match fuel with
  | 0 => none
  | f + 1 =>
    match lastConsumed orig r, r with
    | some last, next :: _ =>
      if needsImplicitMul last next then do
        let (nxt, r2) ← parsePowerS f r
        parseImplicitLoopS f (.BinaryExpression "*" left nxt) orig r2
      else
        some (left, r)
    | _, _ => some (left, r)
termination_by structural fuel

/-- Modelled from the spec: left-associative multiplicative level
(`*`, `/`) of the missing current parser, binding tighter than the
additive level. -/
def parseMultiplicativeS (fuel : Nat) (ts : List Tok) : Option (Expression × List Tok) :=
  match fuel with
  | 0 => none
  | f + 1 => do
    let (l, r) ← parseImplicitS f ts ts
    parseMulLoopS f l r
termination_by structural fuel

/-- Modelled from the spec: the iteration of the multiplicative level. -/
def parseMulLoopS (fuel : Nat) (left : Expression) (r : List Tok) :
    Option (Expression × List Tok) :=
  match fuel with
  | 0 => none
  | f + 1 =>
    match r with
    | .star :: r2 => do
      let (rhs, r3) ← parseImplicitS f r2 r2
      parseMulLoopS f (.BinaryExpression "*" left rhs) r3
    | .slash :: r2 => do
      let (rhs, r3) ← parseImplicitS f r2 r2
      parseMulLoopS f (.BinaryExpression "/" left rhs) r3
    | _ => some (left, r)
termination_by structural fuel

/-- Modelled from the spec: left-associative additive level (`+`, `-`)
of the missing current parser, the loosest-binding level. -/
def parseAdditiveS (fuel : Nat) (ts : List Tok) : Option (Expression × List Tok) :=
  match fuel with
  | 0 => none
  | f + 1 => do
    let (l, r) ← parseMultiplicativeS f ts
    parseAddLoopS f l r
termination_by structural fuel

/-- Modelled from the spec: the iteration of the additive level. -/
def parseAddLoopS (fuel : Nat) (left : Expression) (r : List Tok) :
    Option (Expression × List Tok) :=
  match fuel with
  | 0 => none
  | f + 1 =>
    match r with
    | .plus :: r2 => do
      let (rhs, r3) ← parseMultiplicativeS f r2
      parseAddLoopS f (.BinaryExpression "+" left rhs) r3
    | .minus :: r2 => do
      let (rhs, r3) ← parseMultiplicativeS f r2
      parseAddLoopS f (.BinaryExpression "-" left rhs) r3
    | _ => some (left, r)
termination_by structural fuel

end

/-- Modelled from the spec: the parse entry point of the missing current
parser — parse one full expression and require the whole token stream to
be consumed. -/
def parseTokens (fuel : Nat) (ts : List Tok) : Option Expression :=
  match parseAdditiveS fuel ts with
  | some (e, []) => some e
  | _ => none

/-- Bind of a successful `Except` computation. -/
@[simp] theorem exceptBindOk {α β : Type} (a : α) (f : α → Except VergeError β) :
    (Except.ok a : Except VergeError α) >>= f = f a := rfl

/-- Pure in the `Except` monad is `Except.ok`. -/
@[simp] theorem exceptPureOk {α : Type} (a : α) :
    (pure a : Except VergeError α) = Except.ok a := rfl

/-- A coefficient list in the normal form maintained by the `Polynomial`
constructor: nonempty, and with a nonzero leading coefficient whenever
more than one coefficient is present (so the degree is the length minus
one). -/
def NormalizedPoly (l : List ℚ) : Prop :=
  l ≠ [] ∧ (1 < l.length → l.getLast? ≠ some 0)

/-- Claim C1: on a `RationalFunction` of two normalized `Polynomial`s the
evaluator compares the degrees — a smaller numerator degree converges to
zero, equal degrees converge to the ratio of the leading coefficients,
and a larger numerator degree diverges to the signed infinity carried by
that ratio; the growth kind is `Polynomial` throughout, so the result
depends only on the two degrees and the leading-coefficient ratio. -/
theorem rational_poly_degree_law (P : RealPrims) (num den : List ℚ)
    (_hnum : NormalizedPoly num) (_hden : NormalizedPoly den) :
    converge P (.RationalFunction (.Polynomial num) (.Polynomial den)) =
      .ok (if (num.length : ℤ) - 1 < (den.length : ℤ) - 1 then
        mkConverge (.fin 0) .Polynomial
      else if (num.length : ℤ) - 1 = (den.length : ℤ) - 1 then
        mkConverge (jsDiv (.fin (num.getLastD 0)) (.fin (den.getLastD 0))) .Polynomial
      else
        mkDiverge (jsMul .posInf (jsSign (jsDiv (.fin (num.getLastD 0)) (.fin (den.getLastD 0))))) .Polynomial) := by
  simp only [converge]
  split_ifs <;> rfl

/-- Witness for `rational_poly_degree_law` at the concrete input
`(2n + 1)/(3n + 2)`, which converges to `2/3`. -/
theorem rational_poly_degree_law_witness :
    converge dummyPrims (.RationalFunction (.Polynomial [1, 2]) (.Polynomial [2, 3])) =
      .ok (mkConverge (.fin (2 / 3)) .Polynomial) := by
  have h := rational_poly_degree_law dummyPrims [1, 2] [2, 3]
    ⟨by decide, by decide⟩ ⟨by decide, by decide⟩
  simpa using h

/-- Claim C9 (the failing input): the evaluator applied to the constant
rational `1/0` — numerator and denominator both degree-0 polynomials —
reports `converges = true` with the non-finite limit +Infinity, for any
interpretation of the numeric primitives. -/
theorem converge_one_over_zero_nonfinite (P : RealPrims) :
    converge P (.RationalFunction (.Polynomial [1]) (.Polynomial [0])) =
      .ok ⟨true, some .posInf, none, some .Polynomial⟩ := by
  rfl

/-- Claim C7 (the failing input): the product of the polynomial `n` and
the exponential `(1/2)^n` — built by `Polynomial.multiply`, which yields
a generic `MultiplyFunction` — evaluates to `DivergesIndeterminate`
rather than `Converges(0, Exponential)`, for any interpretation of the
numeric primitives. -/
theorem converge_poly_times_decay_indeterminate (P : RealPrims) :
    mulC 1 (.Polynomial [0, 1]) (.ConstantBaseExpFunction (.fin (1 / 2)) (.Polynomial [0, 1])) =
      .ok (.MultiplyFunction (.Polynomial [0, 1])
        (.ConstantBaseExpFunction (.fin (1 / 2)) (.Polynomial [0, 1]))) ∧
    converge P (.MultiplyFunction (.Polynomial [0, 1])
        (.ConstantBaseExpFunction (.fin (1 / 2)) (.Polynomial [0, 1]))) =
      .ok mkIndet := by
  exact ⟨by with_unfolding_all rfl, by with_unfolding_all rfl⟩

/-- Claim C6 (counterexample): for `E = sin(n)` the pipeline translates
`E - E` to `sin(n) + sin(n) * (-1)` — no structural-equality shortcut
exists in the current engine — and the evaluator classifies it as
`DivergesIndeterminate`, not `Converges(0)`. -/
theorem sin_minus_sin_indeterminate :
    parseFunction dummyPrims 3 (.BinaryExpression "-"
        (.FunctionCall "sin" (.Identifier "n")) (.FunctionCall "sin" (.Identifier "n"))) =
      .ok (.AddFunction (.SinFunction (.Polynomial [0, 1]))
        (.MultiplyFunction (.SinFunction (.Polynomial [0, 1])) (.Polynomial [-1]))) ∧
    converge dummyPrims (.AddFunction (.SinFunction (.Polynomial [0, 1]))
        (.MultiplyFunction (.SinFunction (.Polynomial [0, 1])) (.Polynomial [-1]))) =
      .ok mkIndet := by
  exact ⟨by with_unfolding_all rfl, by with_unfolding_all rfl⟩

/-- Claim C8 (counterexample): a Tan-free input on which the evaluator
raises — a `RationalFunction` whose numerator is a generic
`AddFunction(n, sin(n))` and whose denominator is a polynomial hits the
`Failed to evaluate limt of rational function` throw, so the evaluator
can raise without any Tan wrapper being involved. -/
theorem tanfree_rational_fallback_raises :
    converge dummyPrims (.RationalFunction
        (.AddFunction (.Polynomial [0, 1]) (.SinFunction (.Polynomial [0, 1])))
        (.Polynomial [0, 1])) = .error .rationalFallback := by
  rfl
theorem jsAbs_fin (b : ℚ) : jsAbs (.fin b) = .fin |b| := by
  simp only [jsAbs]
  split_ifs with h
  · exact congrArg _ (abs_of_neg h).symm
  · exact congrArg _ (abs_of_nonneg (not_lt.mp h)).symm

/-- Claim C3: the `ConstantBaseExpFunction(b, f)` case table of the
evaluator — a finite limit `L` of the exponent gives
`Converges(pow(b, L), Exponential)`; an exponent diverging to +Infinity
gives +Infinity for `b > 1`, `Converges(1)` for `b = 1`, indeterminate
for `b = -1` and `b < -1`, and `Converges(0)` for `0 < |b| < 1`; an
exponent diverging to -Infinity mirrors the table with +Infinity and 0
swapped; an indeterminate exponent is indeterminate. -/
theorem constant_base_exp_table (P : RealPrims) (b L : ℚ) (f : BaseFunction)
    (r : ConvergenceResult) (h : converge P f = .ok r) :
    (r.converges = true → r.limit = some (.fin L) →
      converge P (.ConstantBaseExpFunction (.fin b) f) =
        .ok (mkConverge (P.pow (.fin b) (.fin L)) .Exponential)) ∧
    (r.converges = false → r.divergeTo = some .posInf →
      (1 < b → converge P (.ConstantBaseExpFunction (.fin b) f) = .ok (mkDiverge .posInf .Exponential)) ∧
      (b = 1 → converge P (.ConstantBaseExpFunction (.fin b) f) = .ok (mkConverge (.fin 1) .Exponential)) ∧
      (b = -1 → converge P (.ConstantBaseExpFunction (.fin b) f) = .ok mkIndet) ∧
      (b < -1 → converge P (.ConstantBaseExpFunction (.fin b) f) = .ok mkIndet) ∧
      (0 < |b| → |b| < 1 → converge P (.ConstantBaseExpFunction (.fin b) f) = .ok (mkConverge (.fin 0) .Exponential))) ∧
    (r.converges = false → r.divergeTo = some .negInf →
      (1 < |b| → converge P (.ConstantBaseExpFunction (.fin b) f) = .ok (mkConverge (.fin 0) .Exponential)) ∧
      (0 < |b| → |b| < 1 → converge P (.ConstantBaseExpFunction (.fin b) f) = .ok (mkDiverge .posInf .Exponential))) ∧
    (r.converges = false → r.divergeTo = none →
      converge P (.ConstantBaseExpFunction (.fin b) f) = .ok mkIndet) := by
  refine ⟨?_, ?_, ?_, ?_⟩
  · intro hc hl
    simp [converge, h, hc, hl]
  · intro hc hd
    refine ⟨?_, ?_, ?_, ?_, ?_⟩
    · intro hb
      have hb0 : ¬ b < 0 := by linarith
      have habs : |b| = b := abs_of_nonneg (not_lt.mp hb0)
      simp [converge, h, hc, hd, jsAbs_fin, jsGt, jsLt, jsEq, optJsEq, habs, hb, hb0]
    · intro hb
      subst hb
      simp [converge, h, hc, hd, jsAbs_fin, jsGt, jsLt, jsEq, optJsEq]
    · intro hb
      subst hb
      simp [converge, h, hc, hd, jsAbs_fin, jsGt, jsLt, jsEq, optJsEq]
      norm_num
    · intro hb
      have habs : |b| = -b := abs_of_neg (by linarith)
      have h1 : (1:ℚ) < |b| := by rw [habs]; linarith
      have hne : ¬ |b| = 1 := by linarith
      simp [converge, h, hc, hd, jsAbs_fin, jsGt, jsLt, jsEq, optJsEq, h1, hb, hne]
      intro hcon
      linarith
    · intro hb0 hb1
      have hgt : ¬ (1:ℚ) < |b| := by linarith
      have hne : ¬ |b| = 1 := by linarith
      simp [converge, h, hc, hd, jsAbs_fin, jsGt, jsLt, jsEq, optJsEq, hgt, hne]
  · intro hc hd
    refine ⟨?_, ?_⟩
    · intro hb
      simp [converge, h, hc, hd, jsAbs_fin, jsGt, jsLt, jsEq, optJsEq, hb]
    · intro hb0 hb1
      have hgt : ¬ (1:ℚ) < |b| := by linarith
      have hne : ¬ |b| = 1 := by linarith
      simp [converge, h, hc, hd, jsAbs_fin, jsGt, jsLt, jsEq, optJsEq, hgt, hne]
  · intro hc hd
    simp [converge, h, hc, hd]

/-- Witness for `constant_base_exp_table`: `2^n` (base 2, exponent the
sequence `n`, which diverges to +Infinity) diverges to +Infinity with
Exponential growth. -/
theorem constant_base_exp_table_witness :
    converge dummyPrims (.ConstantBaseExpFunction (.fin 2) (.Polynomial [0, 1])) =
      .ok (mkDiverge .posInf .Exponential) :=
  ((constant_base_exp_table dummyPrims 2 0 (.Polynomial [0, 1])
      (mkDiverge .posInf .Polynomial) (by with_unfolding_all rfl)).2.1 rfl rfl).1 (by norm_num)

/-- Claim C2: the `DivideFunction(num, den)` case table of the evaluator,
stated over the results of the two sub-evaluations: both converge with a
nonzero denominator limit gives the quotient of the limits; both
converge with denominator limit 0 is indeterminate; a converging (or
indeterminate) numerator over a signed-divergent denominator converges
to 0; a signed-divergent numerator over a nonzero finite denominator
keeps the numerator's sign and growth; a signed-divergent numerator over
a zero-limit or indeterminate denominator is indeterminate; and when
both diverge signed, a faster-growing denominator gives 0, a
faster-growing numerator diverges with the product of the signs and the
numerator's growth kind, and equal growth kinds are indeterminate. -/
theorem divide_case_table (P : RealPrims) (num den : BaseFunction)
    (rn rd : ConvergenceResult) (dn dd : JsNum)
    (hn : converge P num = .ok rn) (hd : converge P den = .ok rd) :
    (rn.converges = true → rd.converges = true → ¬ optIsZero rd.limit = true →
      converge P (.DivideFunction num den) =
        .ok (mkConverge (jsDiv (rn.limit.getD .nan) (rd.limit.getD .nan)) .Polynomial)) ∧
    (rn.converges = true → rd.converges = true → optIsZero rd.limit = true →
      converge P (.DivideFunction num den) = .ok mkIndet) ∧
    (rn.converges = true → rd.converges = false → rd.divergeTo = some dd →
      converge P (.DivideFunction num den) = .ok (mkConverge (.fin 0) .Polynomial)) ∧
    (rn.converges = false → rn.divergeTo = none → rd.converges = false → rd.divergeTo = some dd →
      converge P (.DivideFunction num den) = .ok (mkConverge (.fin 0) .Polynomial)) ∧
    (rn.converges = false → rn.divergeTo = some dn → rd.converges = true → ¬ optIsZero rd.limit = true →
      converge P (.DivideFunction num den) =
        .ok (mkDiverge dn (rn.growthKind.getD .Polynomial))) ∧
    (rn.converges = false → rn.divergeTo = some dn → rd.converges = true → optIsZero rd.limit = true →
      converge P (.DivideFunction num den) = .ok mkIndet) ∧
    (rn.converges = false → rn.divergeTo = some dn → rd.converges = false → rd.divergeTo = none →
      converge P (.DivideFunction num den) = .ok mkIndet) ∧
    (rn.converges = false → rn.divergeTo = some dn → rd.converges = false → rd.divergeTo = some dd →
      ((rd.growthKind.getD .Polynomial).rank < (rn.growthKind.getD .Polynomial).rank →
        converge P (.DivideFunction num den) = .ok (mkConverge (.fin 0) .Polynomial)) ∧
      ((rn.growthKind.getD .Polynomial).rank < (rd.growthKind.getD .Polynomial).rank →
        converge P (.DivideFunction num den) =
          .ok (mkDiverge (jsMul (jsMul (jsSign dn) (jsSign dd)) .posInf) (rn.growthKind.getD .Polynomial))) ∧
      (rn.growthKind.getD .Polynomial = rd.growthKind.getD .Polynomial →
        converge P (.DivideFunction num den) = .ok mkIndet)) := by
  refine ⟨?_, ?_, ?_, ?_, ?_, ?_, ?_, ?_⟩
  · intro h1 h2 h3
    simp [converge, hn, hd, h1, h2, h3]
  · intro h1 h2 h3
    simp [converge, hn, hd, h1, h2, h3]
  · intro h1 h2 h3
    simp [converge, hn, hd, h1, h2, h3]
  · intro h1 h2 h3 h4
    simp [converge, hn, hd, h1, h2, h3, h4]
  · intro h1 h2 h3 h4
    simp [converge, hn, hd, h1, h2, h3, h4]
  · intro h1 h2 h3 h4
    simp [converge, hn, hd, h1, h2, h3, h4]
  · intro h1 h2 h3 h4
    simp [converge, hn, hd, h1, h2, h3, h4]
  · intro h1 h2 h3 h4
    refine ⟨?_, ?_, ?_⟩
    · intro hg
      have hg2 : ¬ (rn.growthKind.getD .Polynomial).rank < (rd.growthKind.getD .Polynomial).rank :=
        Nat.lt_asymm hg
      simp [converge, hn, hd, h1, h2, h3, h4, hg, hg2]
    · intro hg
      have hg2 : ¬ (rd.growthKind.getD .Polynomial).rank < (rn.growthKind.getD .Polynomial).rank :=
        Nat.lt_asymm hg
      simp [converge, hn, hd, h1, h2, h3, h4, hg, hg2]
    · intro hg
      have hg1 : ¬ (rd.growthKind.getD .Polynomial).rank < (rn.growthKind.getD .Polynomial).rank := by
        rw [hg]; exact Nat.lt_irrefl _
      have hg2 : ¬ (rn.growthKind.getD .Polynomial).rank < (rd.growthKind.getD .Polynomial).rank := by
        rw [hg]; exact Nat.lt_irrefl _
      simp [converge, hn, hd, h1, h2, h3, h4, hg1, hg2]

/-- Witness for `divide_case_table`: the constant quotient `1 / 2`
converges to one half. -/
theorem divide_case_table_witness :
    converge dummyPrims (.DivideFunction (.Polynomial [1]) (.Polynomial [2])) =
      .ok (mkConverge (.fin (1 / 2)) .Polynomial) := by
  have h := (divide_case_table dummyPrims (.Polynomial [1]) (.Polynomial [2])
      (mkConverge (.fin 1) .Polynomial) (mkConverge (.fin 2) .Polynomial) .nan .nan
      (by with_unfolding_all rfl) (by with_unfolding_all rfl)).1 rfl rfl (by decide)
  simpa [mkConverge, jsDiv] using h
/-- Does the translated base of a power expression fall through to the
numeric-exponent loop: it is not a constant polynomial, and if it is a
`RationalFunction` its limit evaluation succeeds without producing a
defined converging limit. -/
def ratConvSkip (P : RealPrims) : BaseFunction → Bool
  | .RationalFunction a b =>
    (match converge P (.RationalFunction a b) with
     | .ok rc => !(rc.converges && rc.limit.isSome)
     | .error _ => false)
  | _ => true

/-- The translated base reaches the repeated-multiplication loop of the
power-expression branch. -/
def takesPowerLoop (P : RealPrims) (bf : BaseFunction) : Bool :=
  (constPolyVal bf).isNone && ratConvSkip P bf

/-- Is an expression a numeric literal node. -/
def isNumericLit : Expression → Bool
  | .NumericLiteral _ => true
  | _ => false

/-- One-step unfolding of the power-expression branch of `parseFunction`
for a non-literal base and a numeric-literal exponent. -/
theorem parseFunction_power_unfold (P : RealPrims) (fuel : Nat) (bexp : Expression) (k : ℚ)
    (hb : isNumericLit bexp = false) :
    parseFunction P fuel (.PowerExpression bexp (.NumericLiteral k)) = (do
      let baseFunc ← parseFunction P fuel bexp
      match constPolyVal baseFunc with
      | some c => do
        let ef ← parseFunction P fuel (.NumericLiteral k)
        pure (.ConstantBaseExpFunction (.fin c) ef)
      | none => do
        let rc ← (match baseFunc with
          | .RationalFunction _ _ => do
            let rc2 ← converge P baseFunc
            pure (some rc2)
          | _ => pure none)
        match rc with
        | some bc =>
          if bc.converges && bc.limit.isSome then do
            let ef ← parseFunction P fuel (.NumericLiteral k)
            pure (.ConstantBaseExpFunction (bc.limit.getD .nan) ef)
          else powNumericCase P fuel baseFunc k
        | none => powNumericCase P fuel baseFunc k) := by
  cases bexp with
  | NumericLiteral v => simp [isNumericLit] at hb
  | Identifier s => rfl
  | UnaryExpression op arg => rfl
  | BinaryExpression op l r => rfl
  | PowerExpression pb pe => rfl
  | FunctionCall name arg => rfl

theorem parseFunction_power_loop (P : RealPrims) (fuel : Nat) (bexp : Expression) (k : ℚ)
    (bf : BaseFunction) (hb : isNumericLit bexp = false)
    (h : parseFunction P fuel bexp = .ok bf) (hl : takesPowerLoop P bf = true) :
    parseFunction P fuel (.PowerExpression bexp (.NumericLiteral k)) =
      powNumericCase P fuel bf k := by
  rw [takesPowerLoop, Bool.and_eq_true] at hl
  obtain ⟨hcpI, hrest⟩ := hl
  have hcp : constPolyVal bf = none := Option.isNone_iff_eq_none.mp hcpI
  rw [parseFunction_power_unfold P fuel bexp k hb, h, exceptBindOk, hcp]
  cases bf with
  | RationalFunction a b =>
    cases hcv : converge P (.RationalFunction a b) with
    | error e => rw [ratConvSkip, hcv] at hrest; simp at hrest
    | ok rc =>
      rw [ratConvSkip, hcv] at hrest
      simp_all
      intro h1 h2
      rcases hrest with hF | hN
      · rw [h1] at hF; cases hF
      · rw [hN] at h2; simp at h2
  | _ => simp_all

theorem powNumericCase_ceil (P : RealPrims) (fuel : Nat) (bf : BaseFunction) (k : ℚ) :
    powNumericCase P fuel bf k =
      powNumericCase P fuel bf (if 0 ≤ k then ((⌈k⌉ : ℤ) : ℚ) else -((⌈|k|⌉ : ℤ) : ℚ)) := by
  by_cases hk : 0 ≤ k
  · have hc : (0:ℚ) ≤ ((⌈k⌉ : ℤ) : ℚ) := by
      exact_mod_cast Int.ceil_nonneg hk
    rw [if_pos hk]
    rw [powNumericCase, powNumericCase, if_pos hk, if_pos hc, Int.ceil_intCast]
  · have hklt : k < 0 := lt_of_not_ge hk
    have habs : |k| = -k := abs_of_neg hklt
    have h1 : (1 : ℤ) ≤ ⌈|k|⌉ := by
      rw [habs]
      exact Int.one_le_ceil_iff.mpr (by linarith)
    have hc : ¬ (0:ℚ) ≤ -((⌈|k|⌉ : ℤ) : ℚ) := by
      push_neg
      have : (1:ℚ) ≤ ((⌈|k|⌉ : ℤ) : ℚ) := by exact_mod_cast h1
      linarith
    rw [if_neg hk]
    rw [powNumericCase, powNumericCase, if_neg hk, if_neg hc]
    have habs2 : |(-((⌈|k|⌉ : ℤ) : ℚ))| = ((⌈|k|⌉ : ℤ) : ℚ) := by
      rw [abs_neg]
      exact abs_of_nonneg (by exact_mod_cast le_trans zero_le_one h1)
    rw [habs2, Int.ceil_intCast]

/-- Claim C10: for a power expression whose base is not a numeric
literal, whose translated base is not a constant polynomial and does not
resolve to a converging rational constant, and whose exponent is any
numeric literal `k`, the translated function equals the translation of
the same base raised to the integer literal `⌈k⌉` (for `0 ≤ k`), or to
`-⌈|k|⌉` (for `k < 0`, which builds one over the positive power): the
repeated-multiplication loop runs `⌈k⌉` (resp. `⌈|k|⌉`) times, and the
translator never fails on a non-integer exponent. -/
theorem power_noninteger_exponent (P : RealPrims) (fuel : Nat) (bexp : Expression) (k : ℚ)
    (bf : BaseFunction) (hb : isNumericLit bexp = false)
    (h : parseFunction P fuel bexp = .ok bf) (hl : takesPowerLoop P bf = true) :
    parseFunction P fuel (.PowerExpression bexp (.NumericLiteral k)) =
      parseFunction P fuel (.PowerExpression bexp
        (.NumericLiteral (if 0 ≤ k then ((⌈k⌉ : ℤ) : ℚ) else -((⌈|k|⌉ : ℤ) : ℚ)))) := by
  rw [parseFunction_power_loop P fuel bexp k bf hb h hl,
    parseFunction_power_loop P fuel bexp _ bf hb h hl]
  exact powNumericCase_ceil P fuel bf k

/-- Witness for `power_noninteger_exponent`: `n^0.5` translates exactly
as `n^1` does, namely to the polynomial `n`. -/
theorem power_noninteger_exponent_witness :
    parseFunction dummyPrims 3 (.PowerExpression (.Identifier "n") (.NumericLiteral (1 / 2))) =
      .ok (.Polynomial [0, 1]) := by
  have h := power_noninteger_exponent dummyPrims 3 (.Identifier "n") (1 / 2)
    (.Polynomial [0, 1]) rfl (by with_unfolding_all rfl) (by with_unfolding_all rfl)
  rw [h]
  with_unfolding_all rfl
/-- Is this token a number or an identifier (an atomic operand). -/
def isAtomTok : Tok → Bool
  | .num _ => true
  | .ident _ => true
  | _ => false

/-- The expression a single atomic token parses to. -/
def atomExpr : Tok → Expression
  | .num v => .NumericLiteral v
  | .ident s => .Identifier s
  | _ => .NumericLiteral 0

theorem atomCases (t : Tok) (h : isAtomTok t = true) :
    (∃ v, t = .num v) ∨ (∃ s, t = .ident s) := by
  cases t with
  | num v => exact .inl ⟨v, rfl⟩
  | ident s => exact .inr ⟨s, rfl⟩
  | _ => simp [isAtomTok] at h

/-- Claim C4: in the spec-modelled parser the multiplicative operators
bind more tightly than the additive ones and both levels associate to
the left: for atomic operands `a`, `b`, `c`, the token stream `a + b * c`
parses to `a + (b * c)`, `a * b / c` parses to `(a * b) / c`, and
`a + b - c` parses to `(a + b) - c`. -/
theorem mul_binds_tighter_than_add (a b c : Tok)
    (ha : isAtomTok a = true) (hb : isAtomTok b = true) (hc : isAtomTok c = true) :
    parseTokens 20 [a, .plus, b, .star, c] =
      some (.BinaryExpression "+" (atomExpr a) (.BinaryExpression "*" (atomExpr b) (atomExpr c))) ∧
    parseTokens 20 [a, .star, b, .slash, c] =
      some (.BinaryExpression "/" (.BinaryExpression "*" (atomExpr a) (atomExpr b)) (atomExpr c)) ∧
    parseTokens 20 [a, .plus, b, .minus, c] =
      some (.BinaryExpression "-" (.BinaryExpression "+" (atomExpr a) (atomExpr b)) (atomExpr c)) := by
  rcases atomCases a ha with ⟨v1, rfl⟩ | ⟨s1, rfl⟩ <;>
    rcases atomCases b hb with ⟨v2, rfl⟩ | ⟨s2, rfl⟩ <;>
      rcases atomCases c hc with ⟨v3, rfl⟩ | ⟨s3, rfl⟩ <;>
        exact ⟨rfl, rfl, rfl⟩

/-- Witness for `mul_binds_tighter_than_add` at `1 + 2 * 3`. -/
theorem mul_binds_tighter_than_add_witness :
    parseTokens 20 [.num 1, .plus, .num 2, .star, .num 3] =
      some (.BinaryExpression "+" (.NumericLiteral 1)
        (.BinaryExpression "*" (.NumericLiteral 2) (.NumericLiteral 3))) :=
  (mul_binds_tighter_than_add (.num 1) (.num 2) (.num 3) rfl rfl rfl).1
/-- Claim C5: an identifier followed directly by an opening parenthesis
is parsed as a single-argument named function call (no implicit
multiplication is inserted), and the translator resolves the reserved
names case-insensitively — `sin`, `cos`, `tan`, `log`, `log10`, `log2`,
`ln`, `log_e`, `sqrt`, `sqrt2`, `exp`, `e^`, `abs` — while any
unrecognized name fails with the UnknownFunction error carrying that
name. -/
theorem named_function_call_rule (P : RealPrims) (fuel : Nat) (s : String)
    (arg : Expression) (af : BaseFunction) (h : parseFunction P fuel arg = .ok af) :
    parseTokens 20 [.ident s, .lparen, .ident "n", .rparen] =
      some (.FunctionCall s (.Identifier "n")) ∧
    (lowerStr s = "sin" → parseFunction P fuel (.FunctionCall s arg) = .ok (.SinFunction af)) ∧
    (lowerStr s = "cos" → parseFunction P fuel (.FunctionCall s arg) = .ok (.CosFunction af)) ∧
    (lowerStr s = "tan" → parseFunction P fuel (.FunctionCall s arg) = .ok (.TanFunction af)) ∧
    (lowerStr s = "log" → parseFunction P fuel (.FunctionCall s arg) = .ok (.LogFunction af 10)) ∧
    (lowerStr s = "log10" → parseFunction P fuel (.FunctionCall s arg) = .ok (.LogFunction af 10)) ∧
    (lowerStr s = "log2" → parseFunction P fuel (.FunctionCall s arg) = .ok (.LogFunction af 2)) ∧
    (lowerStr s = "ln" → parseFunction P fuel (.FunctionCall s arg) = .ok (.LnFunction af)) ∧
    (lowerStr s = "log_e" → parseFunction P fuel (.FunctionCall s arg) = .ok (.LnFunction af)) ∧
    (lowerStr s = "sqrt" → parseFunction P fuel (.FunctionCall s arg) = .ok (.SqrtFunction af)) ∧
    (lowerStr s = "sqrt2" → parseFunction P fuel (.FunctionCall s arg) = .ok (.SqrtFunction af)) ∧
    (lowerStr s = "exp" → parseFunction P fuel (.FunctionCall s arg) = .ok (.EExpFunction af)) ∧
    (lowerStr s = "e^" → parseFunction P fuel (.FunctionCall s arg) = .ok (.EExpFunction af)) ∧
    (lowerStr s = "abs" → parseFunction P fuel (.FunctionCall s arg) = .ok af) ∧
    (lowerStr s ∉ ["sin", "cos", "tan", "log", "log10", "log2", "ln", "log_e",
        "sqrt", "sqrt2", "exp", "e^", "abs"] →
      parseFunction P fuel (.FunctionCall s arg) = .error (.unknownFunction s)) := by
  refine ⟨rfl, ?_, ?_, ?_, ?_, ?_, ?_, ?_, ?_, ?_, ?_, ?_, ?_, ?_, ?_⟩ <;> intro ht <;>
    simp only [parseFunction, h, exceptBindOk]
  case _ => rw [ht]; with_unfolding_all rfl
  case _ => rw [ht]; with_unfolding_all rfl
  case _ => rw [ht]; with_unfolding_all rfl
  case _ => rw [ht]; with_unfolding_all rfl
  case _ => rw [ht]; with_unfolding_all rfl
  case _ => rw [ht]; with_unfolding_all rfl
  case _ => rw [ht]; with_unfolding_all rfl
  case _ => rw [ht]; with_unfolding_all rfl
  case _ => rw [ht]; with_unfolding_all rfl
  case _ => rw [ht]; with_unfolding_all rfl
  case _ => rw [ht]; with_unfolding_all rfl
  case _ => rw [ht]; with_unfolding_all rfl
  case _ => rw [ht]; with_unfolding_all rfl
  case _ =>
    split
    all_goals try rfl
    all_goals simp_all

/-- Witness for `named_function_call_rule`: `SIN(n)` parses to a
function-call node and translates to the Sin wrapper, and the name
`foo` is rejected with an UnknownFunction error naming it. -/
theorem named_function_call_rule_witness :
    parseTokens 20 [.ident "SIN", .lparen, .ident "n", .rparen] =
      some (.FunctionCall "SIN" (.Identifier "n")) ∧
    parseFunction dummyPrims 3 (.FunctionCall "SIN" (.Identifier "n")) =
      .ok (.SinFunction (.Polynomial [0, 1])) ∧
    parseFunction dummyPrims 3 (.FunctionCall "foo" (.Identifier "n")) =
      .error (.unknownFunction "foo") := by
  have h1 := named_function_call_rule dummyPrims 3 "SIN" (.Identifier "n")
    (.Polynomial [0, 1]) (by with_unfolding_all rfl)
  have h2 := named_function_call_rule dummyPrims 3 "foo" (.Identifier "n")
    (.Polynomial [0, 1]) (by with_unfolding_all rfl)
  refine ⟨h1.1, h1.2.1 (by with_unfolding_all rfl), ?_⟩
  exact h2.2.2.2.2.2.2.2.2.2.2.2.2.2.2 (by decide)
theorem addCoeffs_nil_left (l : List ℚ) : addCoeffs [] l = l := by
  induction l with
  | nil => rw [addCoeffs]
  | cons b bs ih => rw [addCoeffs, ih]

theorem mulCoeffs_negone (p : List ℚ) : mulCoeffs p [-1] = p.map (fun a => -a) := by
  induction p with
  | nil => rw [mulCoeffs, List.map_nil]
  | cons a as ih =>
    rw [mulCoeffs, ih]
    show addCoeffs [a * -1] (0 :: List.map (fun a => -a) as) = -a :: List.map (fun a => -a) as
    rw [addCoeffs, addCoeffs_nil_left]
    ring_nf

theorem dropTrailingZeros_getD (m : List ℚ) (i : Nat) :
    (dropTrailingZeros m).getD i 0 = m.getD i 0 := by
  induction m generalizing i with
  | nil => rfl
  | cons c rest ih =>
    rw [dropTrailingZeros]
    cases hr : dropTrailingZeros rest with
    | nil =>
      have hz : ∀ j, rest.getD j 0 = 0 := by
        intro j
        have hh := ih j
        rw [hr, List.getD_nil] at hh
        exact hh.symm
      by_cases hc : c = 0
      · rw [if_pos hc]
        cases i with
        | zero => rw [List.getD_nil, List.getD_cons_zero, hc]
        | succ j => rw [List.getD_nil, List.getD_cons_succ, hz j]
      · rw [if_neg hc]
        cases i with
        | zero => rw [List.getD_cons_zero, List.getD_cons_zero]
        | succ j => rw [List.getD_cons_succ, List.getD_cons_succ, List.getD_nil, hz j]
    | cons d rest2 =>
      cases i with
      | zero => rw [List.getD_cons_zero, List.getD_cons_zero]
      | succ j =>
        rw [List.getD_cons_succ, List.getD_cons_succ, ← hr, ih j]

theorem trimPoly_getD (m : List ℚ) (i : Nat) : (trimPoly m).getD i 0 = m.getD i 0 := by
  cases m with
  | nil =>
    cases i with
    | zero => rfl
    | succ j => rw [trimPoly, List.getD_cons_succ, List.getD_nil, List.getD_nil]
  | cons c rest =>
    cases i with
    | zero => rw [trimPoly, List.getD_cons_zero, List.getD_cons_zero]
    | succ j =>
      rw [trimPoly, List.getD_cons_succ, List.getD_cons_succ]
      exact dropTrailingZeros_getD rest j

theorem addCoeffs_getD (l1 l2 : List ℚ) (i : Nat) :
    (addCoeffs l1 l2).getD i 0 = l1.getD i 0 + l2.getD i 0 := by
  induction l1 generalizing l2 i with
  | nil => rw [addCoeffs_nil_left, List.getD_nil, zero_add]
  | cons a as ih =>
    cases l2 with
    | nil =>
      rw [addCoeffs]
      cases i with
      | zero => rw [List.getD_cons_zero, List.getD_cons_zero, List.getD_nil, add_zero]
      | succ j =>
        rw [List.getD_cons_succ, List.getD_cons_succ, List.getD_nil]
        have := ih [] j
        rw [List.getD_nil] at this
        exact this
    | cons b bs =>
      rw [addCoeffs]
      cases i with
      | zero => rw [List.getD_cons_zero, List.getD_cons_zero, List.getD_cons_zero]
      | succ j =>
        rw [List.getD_cons_succ, List.getD_cons_succ, List.getD_cons_succ]
        exact ih bs j

theorem map_neg_getD (p : List ℚ) (i : Nat) :
    (p.map (fun a => -a)).getD i 0 = -(p.getD i 0) := by
  induction p generalizing i with
  | nil => simp
  | cons a as ih =>
    rw [List.map_cons]
    cases i with
    | zero => rw [List.getD_cons_zero, List.getD_cons_zero]
    | succ j => rw [List.getD_cons_succ, List.getD_cons_succ, ih j]

theorem dropTrailingZeros_allZero (m : List ℚ) (h : ∀ i, m.getD i 0 = 0) :
    dropTrailingZeros m = [] := by
  induction m with
  | nil => rfl
  | cons c rest ih =>
    have hc : c = 0 := by
      have := h 0
      rwa [List.getD_cons_zero] at this
    have hr : dropTrailingZeros rest = [] := ih (fun i => by
      have := h (i + 1)
      rwa [List.getD_cons_succ] at this)
    rw [dropTrailingZeros, hr, if_pos hc]

theorem trimPoly_allZero (m : List ℚ) (h : ∀ i, m.getD i 0 = 0) : trimPoly m = [0] := by
  cases m with
  | nil => rfl
  | cons c rest =>
    have hc : c = 0 := by
      have := h 0
      rwa [List.getD_cons_zero] at this
    have hr : dropTrailingZeros rest = [] := dropTrailingZeros_allZero rest (fun i => by
      have := h (i + 1)
      rwa [List.getD_cons_succ] at this)
    rw [trimPoly, hr, hc]

/-- Adding a coefficient list to its own trimmed negation produces the
zero polynomial after normalization. -/
theorem self_cancel_trim (p : List ℚ) :
    trimPoly (addCoeffs p (trimPoly (mulCoeffs p [-1]))) = [0] := by
  apply trimPoly_allZero
  intro i
  rw [addCoeffs_getD, trimPoly_getD, mulCoeffs_negone, map_neg_getD]
  ring

/-- Claim C6 (amended): the current pipeline translates `E - E` as
`add(E, multiply(E, Polynomial([-1])))` with no structural-equality
shortcut; whenever `E` translates to a `Polynomial`, the coefficient
algebra cancels and the result is the zero polynomial, whose limit is
`Converges(0, Polynomial)`.  (For a non-polynomial translation the
cancellation does not happen; see the counterexample `E = sin(n)`.) -/
theorem sub_self_polynomial_converges_zero (P : RealPrims) (fuel : Nat) (E : Expression)
    (p : List ℚ) (h : parseFunction P (fuel + 1) E = .ok (.Polynomial p)) :
    parseFunction P (fuel + 1) (.BinaryExpression "-" E E) = .ok (.Polynomial [0]) ∧
    converge P (.Polynomial [0]) = .ok (mkConverge (.fin 0) .Polynomial) := by
  constructor
  · simp only [parseFunction, h, exceptBindOk]
    rw [if_neg (by decide), if_neg (by decide), if_pos trivial]
    have ht : trimPoly [-1] = ([-1] : List ℚ) := rfl
    rw [ht]
    simp only [mulC, addC, exceptBindOk, exceptPureOk]
    rw [self_cancel_trim]
  · rfl

/-- Witness for `sub_self_polynomial_converges_zero` at `E = n`. -/
theorem sub_self_polynomial_converges_zero_witness :
    parseFunction dummyPrims 3 (.BinaryExpression "-" (.Identifier "n") (.Identifier "n")) =
      .ok (.Polynomial [0]) :=
  (sub_self_polynomial_converges_zero dummyPrims 2 (.Identifier "n") [0, 1]
    (by with_unfolding_all rfl)).1
/-- A Tan-free Asymptotic Function whose every `RationalFunction`
subterm is in a shape the evaluator supports: both components
`Polynomial`s, or at least one component itself a `RationalFunction`. -/
def convergeSafe : BaseFunction → Bool
  | .Polynomial _ => true
  | .RationalFunction n d =>
    (n.isPolyB && d.isPolyB || n.isRatB || d.isRatB) && convergeSafe n && convergeSafe d
  | .AddFunction l r => convergeSafe l && convergeSafe r
  | .MultiplyFunction l r => convergeSafe l && convergeSafe r
  | .DivideFunction l r => convergeSafe l && convergeSafe r
  | .SinFunction a => convergeSafe a
  | .CosFunction a => convergeSafe a
  | .TanFunction _ => false
  | .LogFunction a _ => convergeSafe a
  | .LnFunction a => convergeSafe a
  | .SqrtFunction a => convergeSafe a
  | .EExpFunction a => convergeSafe a
  | .ConstantBaseExpFunction _ e => convergeSafe e

theorem isPolyB_exists (x : BaseFunction) (h : x.isPolyB = true) :
    ∃ cs, x = .Polynomial cs := by
  cases x <;> simp_all [isPolyB]

/-- Every Tan-free function whose rational subterms are in supported
shapes evaluates without raising. -/
theorem convergeSafe_ok_aux (P : RealPrims) (f : BaseFunction)
    (h : convergeSafe f = true) : ∃ r, converge P f = .ok r := by
  induction f with
  | Polynomial cs =>
    simp only [converge]
    split
    · exact ⟨_, rfl⟩
    · exact ⟨_, rfl⟩
  | RationalFunction n d ihn ihd =>
    rw [convergeSafe, Bool.and_eq_true, Bool.and_eq_true] at h
    obtain ⟨⟨hshape, hn⟩, hd2⟩ := h
    obtain ⟨rn, hrn⟩ := ihn hn
    obtain ⟨rd, hrd⟩ := ihd hd2
    simp only [converge]
    split
    · repeat' split
      all_goals exact ⟨_, rfl⟩
    · next x y hno =>
      have hrat : (n.isRatB || d.isRatB) = true := by
        rcases Bool.or_eq_true _ _ |>.mp hshape with hpp | hr
        · rcases Bool.or_eq_true _ _ |>.mp hpp with hboth | hr2
          · rw [Bool.and_eq_true] at hboth
            obtain ⟨cs, rfl⟩ := isPolyB_exists _ hboth.1
            obtain ⟨ds, rfl⟩ := isPolyB_exists _ hboth.2
            exact (hno cs ds rfl rfl).elim
          · exact Bool.or_eq_true _ _ |>.mpr (.inl hr2)
        · exact Bool.or_eq_true _ _ |>.mpr (.inr hr)
      rw [if_pos hrat]
      simp only [hrn, hrd, exceptBindOk]
      repeat' split
      all_goals exact ⟨_, rfl⟩
  | AddFunction l r ihl ihr =>
    rw [convergeSafe, Bool.and_eq_true] at h
    obtain ⟨rl, hrl⟩ := ihl h.1
    obtain ⟨rr, hrr⟩ := ihr h.2
    simp only [converge, hrl, hrr, exceptBindOk]
    repeat' split
    all_goals exact ⟨_, rfl⟩
  | MultiplyFunction l r ihl ihr =>
    rw [convergeSafe, Bool.and_eq_true] at h
    obtain ⟨rl, hrl⟩ := ihl h.1
    obtain ⟨rr, hrr⟩ := ihr h.2
    simp only [converge, hrl, hrr, exceptBindOk]
    repeat' split
    all_goals exact ⟨_, rfl⟩
  | DivideFunction l r ihl ihr =>
    rw [convergeSafe, Bool.and_eq_true] at h
    obtain ⟨rl, hrl⟩ := ihl h.1
    obtain ⟨rr, hrr⟩ := ihr h.2
    simp only [converge, hrl, hrr, exceptBindOk]
    repeat' split
    all_goals exact ⟨_, rfl⟩
  | SinFunction a ih =>
    rw [convergeSafe] at h
    obtain ⟨ra, hra⟩ := ih h
    simp only [converge, hra, exceptBindOk]
    repeat' split
    all_goals exact ⟨_, rfl⟩
  | CosFunction a ih =>
    rw [convergeSafe] at h
    obtain ⟨ra, hra⟩ := ih h
    simp only [converge, hra, exceptBindOk]
    repeat' split
    all_goals exact ⟨_, rfl⟩
  | TanFunction a ih =>
    rw [convergeSafe] at h
    cases h
  | LogFunction a base ih =>
    rw [convergeSafe] at h
    obtain ⟨ra, hra⟩ := ih h
    simp only [converge, hra, exceptBindOk]
    repeat' split
    all_goals exact ⟨_, rfl⟩
  | LnFunction a ih =>
    rw [convergeSafe] at h
    obtain ⟨ra, hra⟩ := ih h
    simp only [converge, hra, exceptBindOk]
    repeat' split
    all_goals exact ⟨_, rfl⟩
  | SqrtFunction a ih =>
    rw [convergeSafe] at h
    obtain ⟨ra, hra⟩ := ih h
    simp only [converge, hra, exceptBindOk]
    repeat' split
    all_goals exact ⟨_, rfl⟩
  | EExpFunction a ih =>
    rw [convergeSafe] at h
    obtain ⟨ra, hra⟩ := ih h
    simp only [converge, hra, exceptBindOk]
    repeat' split
    all_goals exact ⟨_, rfl⟩
  | ConstantBaseExpFunction base e ih =>
    rw [convergeSafe] at h
    obtain ⟨re, hre⟩ := ih h
    simp only [converge, hre, exceptBindOk]
    repeat' split
    all_goals exact ⟨_, rfl⟩

/-- Claim C8 (amended): the evaluator's exceptions are confined to the
Tan failure and the rational-function fallback failure, and the Tan
failure is raised exactly when the Tan argument's limit is determinate:
(1) every Asymptotic Function containing no Tan wrapper and whose every
`RationalFunction` subterm is in a supported shape evaluates to a
`ConvergenceResult` without raising; (2) a Tan wrapper over an argument
whose result is indeterminate (not converging, with a falsy `divergeTo`)
returns `DivergesIndeterminate` without raising; (3) a Tan wrapper over
an argument with a determinate limit raises the UnsupportedOperation
failure. -/
theorem converge_ok_of_safe (P : RealPrims) (f arg : BaseFunction) (ra : ConvergenceResult) :
    (convergeSafe f = true → ∃ r, converge P f = .ok r) ∧
    (converge P arg = .ok ra → ra.converges = false → optFalsy ra.divergeTo = true →
      converge P (.TanFunction arg) = .ok mkIndet) ∧
    (converge P arg = .ok ra → ¬ (ra.converges = false ∧ optFalsy ra.divergeTo = true) →
      converge P (.TanFunction arg) = .error .tanUnsupported) := by
  refine ⟨convergeSafe_ok_aux P f, ?_, ?_⟩
  · intro ha hc hf
    simp only [converge, ha, exceptBindOk, hc, hf]
    rfl
  · intro ha hn
    have hcond : ¬ ((!ra.converges && optFalsy ra.divergeTo) = true) := by
      intro hcon
      rw [Bool.and_eq_true, Bool.not_eq_true'] at hcon
      exact hn ⟨hcon.1, hcon.2⟩
    simp only [converge, ha, exceptBindOk]
    rw [if_neg hcond]
    rfl

/-- Witness for `converge_ok_of_safe`: the Tan-free input `sin(n)`
evaluates without raising, and `tan(5)` (a determinate argument) raises
the Tan failure. -/
theorem converge_ok_of_safe_witness :
    (∃ r, converge dummyPrims (.SinFunction (.Polynomial [0, 1])) = .ok r) ∧
      converge dummyPrims (.TanFunction (.Polynomial [5])) = .error .tanUnsupported := by
  constructor
  · exact (converge_ok_of_safe dummyPrims (.SinFunction (.Polynomial [0, 1]))
      (.Polynomial [5]) (mkConverge (.fin 5) .Polynomial)).1 rfl
  · exact (converge_ok_of_safe dummyPrims (.SinFunction (.Polynomial [0, 1]))
      (.Polynomial [5]) (mkConverge (.fin 5) .Polynomial)).2.2 (by with_unfolding_all rfl)
      (by simp [mkConverge, optFalsy])
